import Mathlib

/-!
Shallow embedding of the staleness-aware asynchronous federated-averaging
strategy of `src/async_server.py` (`StalenessAwareAsyncFedAvg`) and of the
staleness bookkeeping of `src/async_client.py` (`AsyncFlowerClient`).

Numeric tensors are modelled as flat lists of rationals; a parameter vector
(`Parameters.tensors` on the Flower side) is a list of tensors.  The open
metrics dictionary returned by a client is modelled as a record of optional
fields, with `Option.getD` playing the role of `dict.get(key, default)`.
-/

namespace AsyncFL

abbrev ClientId := String

abbrev Tensor := List ℚ

abbrev Params := List Tensor

/-- Round metrics dictionary returned by `aggregate_fit` / `aggregate_evaluate`. -/
abbrev Metrics := List (String × ℚ)

/-- The metrics bag a client attaches to a fit result.  `none` models a key
absent from the Python dictionary; the server reads each key with
`metrics.get(key, default)`. -/
structure FitMetrics where
  staleness : Option Int
  is_stale : Option Bool
  needs_sync : Option Bool
deriving DecidableEq

/-- A client's fit result (`FitRes` on the Flower side): sample count,
candidate tensors, metrics bag. -/
structure FitRes where
  num_examples : Int
  tensors : Params
  metrics : FitMetrics
deriving DecidableEq

/-- The metrics bag attached to an evaluate result. -/
structure EvalMetrics where
  accuracy : Option ℚ
deriving DecidableEq

/-- A client's evaluate result. -/
structure EvalRes where
  loss : ℚ
  num_examples : Int
  metrics : EvalMetrics
deriving DecidableEq

/-- The mutable fields of `StalenessAwareAsyncFedAvg` that the
round-coordination logic reads or writes (`__init__`, lines 58-78).
`client_rounds` and `staleness_stats` are `defaultdict`s, modelled as total
functions with the dictionary's default (`0`, resp. `[]`) built in. -/
structure ServerState where
  min_fit_clients : Nat
  staleness_threshold : Int
  server_round : Int
  client_rounds : ClientId → Int
  staleness_stats : ClientId → List Int
  accepted_updates : Nat
  rejected_updates : Nat
  global_parameters : Option Params
  parameters_history : List (Option Params)

/-- The state of `StalenessAwareAsyncFedAvg.__init__(initial_parameters, ...)`:
`global_parameters = initial_parameters`, `parameters_history = [initial_parameters]`,
all counters zero, `defaultdict` tables empty. -/
def initState (initial_parameters : Option Params) (min_fit : Nat) (threshold : Int) :
    ServerState :=
  { min_fit_clients := min_fit
    staleness_threshold := threshold
    server_round := 0
    client_rounds := fun _ => 0
    staleness_stats := fun _ => []
    accepted_updates := 0
    rejected_updates := 0
    global_parameters := initial_parameters
    parameters_history := [initial_parameters] }

/-- The server's per-contribution rejection test (`async_server.py` line 159):
`is_stale and staleness > self.staleness_threshold`, where both values are
read from the client-reported metrics bag with defaults `False` and `0`. -/
def isRejected (threshold : Int) (fr : FitRes) : Bool :=
  fr.metrics.is_stale.getD false && decide (threshold < fr.metrics.staleness.getD 0)

/-- `np.mean` over a list of integers, with the code's
`if staleness_list else 0` guard (`async_server.py` line 210). -/
def meanInt (l : List Int) : ℚ :=
  if l.isEmpty then 0 else (l.map (fun (x : Int) => (x : ℚ))).sum / (l.length : ℚ)

/-- `np.mean` over a list of rationals, with the `if accuracies else 0.0`
guard (`async_server.py` line 246). -/
def meanQ (l : List ℚ) : ℚ :=
  if l.isEmpty then 0 else l.sum / (l.length : ℚ)

/-- Pointwise update of the `client_rounds` defaultdict. -/
def setClientRound (f : ClientId → Int) (c : ClientId) (v : Int) : ClientId → Int :=
  fun c' => if c' = c then v else f c'

/-- `self.staleness_stats[client_id].append(staleness)`. -/
def pushStat (f : ClientId → List Int) (c : ClientId) (v : Int) : ClientId → List Int :=
  fun c' => if c' = c then f c' ++ [v] else f c'

/-- Accumulator of the per-result loop of `aggregate_fit`
(`async_server.py` lines 137-175): the four lists built up alongside the
mutated strategy state. -/
structure FitLoop where
  st : ServerState
  parameters_list : List Params
  weights : List Int
  staleness_list : List Int
  client_ids : List ClientId

def initLoop (st : ServerState) : FitLoop :=
  ⟨st, [], [], [], []⟩

/-- One iteration of the loop of `aggregate_fit` (lines 144-175): update the
staleness tracking tables for the client unconditionally, then either bump
the rejected counter (too stale) or bump the accepted counter and append the
contribution's tensors, sample count, staleness and id to the four lists. -/
def processResult (server_round : Int) (acc : FitLoop) (res : ClientId × FitRes) : FitLoop :=
  let cid := res.1
  let fr := res.2
  let staleness := fr.metrics.staleness.getD 0
  let st0 := acc.st
  let st1 : ServerState :=
    { st0 with
      client_rounds := setClientRound st0.client_rounds cid (server_round - staleness)
      staleness_stats := pushStat st0.staleness_stats cid staleness }
  if isRejected st0.staleness_threshold fr then
    { acc with st := { st1 with rejected_updates := st1.rejected_updates + 1 } }
  else
    { st := { st1 with accepted_updates := st1.accepted_updates + 1 }
      parameters_list := acc.parameters_list ++ [fr.tensors]
      weights := acc.weights ++ [fr.num_examples]
      staleness_list := acc.staleness_list ++ [staleness]
      client_ids := acc.client_ids ++ [cid] }

/-- `np.zeros_like` applied tensor-by-tensor (lines 194-197). -/
def zerosLike (p : Params) : Params :=
  p.map (fun t => t.map (fun _ => (0 : ℚ)))

/-- `aggregated[j] += normalized_weights[i] * param`, elementwise on one
tensor. -/
def addScaled (w : ℚ) (a t : Tensor) : Tensor :=
  List.zipWith (fun x y => x + w * y) a t

/-- Folding one contribution into the accumulator (lines 199-201): positions
`j < len(params)` are updated in place, positions beyond `len(params)` are
left untouched.  (When a contribution has more tensors than the accumulator
the Python code raises `IndexError`; that path is outside every theorem
below, which all assume or exhibit matching tensor counts.) -/
def foldContrib (agg : Params) (w : ℚ) (p : Params) : Params :=
  List.zipWith (addScaled w) agg p ++ agg.drop p.length

/-- `total_weight = sum(weights)` (line 190). -/
def totalWeight (weights : List Int) : ℚ :=
  (weights.map (fun (w : Int) => (w : ℚ))).sum

/-- `normalized_weights = [w / total_weight for w in weights]` (line 191). -/
def normalizedWeights (weights : List Int) : List ℚ :=
  weights.map (fun (w : Int) => (w : ℚ) / totalWeight weights)

/-- The aggregation block of `aggregate_fit` (lines 189-201): normalize the
sample-count weights by their total, start from zero tensors shaped like the
first contribution, and fold in `normalized_weights[i] * parameters_list[i]`. -/
def weightedAverage (parameters_list : List Params) (weights : List Int) : Params :=
  let init := zerosLike (parameters_list.headD [])
  (List.zip (normalizedWeights weights) parameters_list).foldl
    (fun agg wp => foldContrib agg wp.1 wp.2) init

/-- The whole per-result loop of `aggregate_fit` (lines 137-175), starting
from the strategy state and the four empty lists. -/
def runLoop (st : ServerState) (server_round : Int)
    (results : List (ClientId × FitRes)) : FitLoop :=
  results.foldl (processResult server_round) (initLoop st)

/-- `StalenessAwareAsyncFedAvg.aggregate_fit` (lines 116-214): returns the
published parameters (`none` when no results arrived), the round metrics
dictionary, and the strategy state after the call. -/
def aggregate_fit (st : ServerState) (server_round : Int)
    (results : List (ClientId × FitRes)) : Option Params × Metrics × ServerState :=
  if results.isEmpty then (none, [], st)
  else
    let L := runLoop st server_round results
    if L.parameters_list.length < L.st.min_fit_clients then
      (L.st.global_parameters,
       [("accepted_updates", (L.st.accepted_updates : ℚ)),
        ("rejected_updates", (L.st.rejected_updates : ℚ))],
       L.st)
    else
      let aggregated := weightedAverage L.parameters_list L.weights
      let st' : ServerState :=
        { L.st with
          global_parameters := some aggregated
          parameters_history := L.st.parameters_history ++ [some aggregated] }
      (some aggregated,
       [("accepted_updates", (st'.accepted_updates : ℚ)),
        ("rejected_updates", (st'.rejected_updates : ℚ)),
        ("avg_staleness", meanInt L.staleness_list),
        ("aggregated_from", (L.parameters_list.length : ℚ))],
       st')

/-- `StalenessAwareAsyncFedAvg.aggregate_evaluate` (lines 231-253): averages
the client-reported accuracies; touches none of the strategy's state. -/
def aggregate_evaluate (st : ServerState) (_server_round : Int)
    (results : List (ClientId × EvalRes)) : Option ℚ × Metrics × ServerState :=
  if results.isEmpty then (none, [], st)
  else
    let accuracies := results.map (fun r => r.2.metrics.accuracy.getD 0)
    let avg_accuracy := meanQ accuracies
    (some avg_accuracy,
     [("avg_accuracy", avg_accuracy), ("num_evaluated", (results.length : ℚ))],
     st)

/-- The state effect and client config of `configure_fit` (lines 91-114):
records the round number and hands every selected client
`(server_round, staleness_threshold)`. -/
def configure_fit (st : ServerState) (server_round : Int) : ServerState × (Int × Int) :=
  ({ st with server_round := server_round }, (server_round, st.staleness_threshold))

/-- Modelled from the spec: Flower's server loop (the round driver, not part
of `src/`) runs one round by calling `configure_fit` and then
`aggregate_fit` with the same round number. -/
def roundStep (st : ServerState) (server_round : Int)
    (results : List (ClientId × FitRes)) : Option Params × Metrics × ServerState :=
  aggregate_fit (configure_fit st server_round).1 server_round results

/-- Modelled from the spec: Flower's server loop (not part of `src/`) drives
the fit rounds in order, and `serverRound` advances by exactly 1 per
completed round. -/
def runFitRounds (st : ServerState) (server_round : Int) :
    List (List (ClientId × FitRes)) → ServerState
  | [] => st
  | rs :: rest => runFitRounds (roundStep st server_round rs).2.2 (server_round + 1) rest

/-- Number of results the staleness filter of `aggregate_fit` accepts. -/
def numAccepted (threshold : Int) (results : List (ClientId × FitRes)) : Nat :=
  (results.filter (fun r => !(isRejected threshold r.2))).length

/-- `staleness = max(0, server_round - local_round)` as computed by
`AsyncFlowerClient._calculate_staleness` (`async_client.py` line 76). -/
def clientStaleness (local_round server_round : Int) : Int :=
  max 0 (server_round - local_round)

/-- The metrics bag `AsyncFlowerClient.fit` reports (`async_client.py`
lines 115-155): when its staleness exceeds the threshold it reports
`is_stale = True` and `needs_sync = True`; on the normal training path it
reports `is_stale = False`. -/
def clientFitMetrics (local_round server_round threshold : Int) : FitMetrics :=
  let s := clientStaleness local_round server_round
  if threshold < s then
    { staleness := some s, is_stale := some true, needs_sync := some true }
  else
    { staleness := some s, is_stale := some false, needs_sync := none }

/-- Tensor shapes of a parameter vector (here: tensor lengths). -/
def shapeOf (p : Params) : List Nat :=
  p.map (fun t => t.length)

/-- Entry `k` of tensor `j` of a parameter vector, `0` out of range. -/
def nthQ (p : Params) (j k : Nat) : ℚ :=
  (p.getD j []).getD k 0

/-- The invariant of claim C9: the current global parameter vector is the
last element of the parameters history. -/
def histInv (st : ServerState) : Prop :=
  st.parameters_history.getLast? = some st.global_parameters

/-- The condition under which `aggregate_fit` actually aggregates: some
results arrived and at least `min_fit_clients` of them pass the staleness
filter. -/
def aggregationPerformed (st : ServerState) (results : List (ClientId × FitRes)) : Bool :=
  !results.isEmpty && decide (st.min_fit_clients ≤ numAccepted st.staleness_threshold results)

/-- A concrete strategy state used by the witnesses and counterexamples:
threshold 2, given `min_fit_clients`, current global vector `[[1,2],[3]]`. -/
def sampleState (mfc : Nat) : ServerState :=
  { min_fit_clients := mfc
    staleness_threshold := 2
    server_round := 0
    client_rounds := fun _ => 0
    staleness_stats := fun _ => []
    accepted_updates := 0
    rejected_updates := 0
    global_parameters := some [[1, 2], [3]]
    parameters_history := [some [[1, 2], [3]]] }

/-- The sample state with every client's recorded round preset to 5. -/
def sampleStateCR : ServerState :=
  { sampleState 4 with client_rounds := fun _ => 5 }

/-- A fresh (staleness 0, not stale) fit result. -/
def freshFit (n : Int) (ts : Params) : FitRes :=
  ⟨n, ts, ⟨some 0, some false, none⟩⟩

/-- A fit result reporting staleness 8, stale, needing resync. -/
def staleFit : FitRes :=
  ⟨7, [[1]], ⟨some 8, some true, some true⟩⟩

/-- A fit result whose metrics bag omits both staleness keys. -/
def bareFit (n : Int) (ts : Params) : FitRes :=
  ⟨n, ts, ⟨none, none, none⟩⟩

/-! ### Helper lemmas about the per-result loop of `aggregate_fit` -/

theorem processResult_fields (r : Int) (acc : FitLoop) (x : ClientId × FitRes) :
    (processResult r acc x).st.staleness_threshold = acc.st.staleness_threshold ∧
    (processResult r acc x).st.min_fit_clients = acc.st.min_fit_clients ∧
    (processResult r acc x).st.global_parameters = acc.st.global_parameters ∧
    (processResult r acc x).st.parameters_history = acc.st.parameters_history := by
  simp only [processResult]
  cases h : isRejected acc.st.staleness_threshold x.2 <;> simp [h]

theorem processResult_lists (r : Int) (acc : FitLoop) (x : ClientId × FitRes) :
    (processResult r acc x).parameters_list
      = acc.parameters_list
        ++ (if isRejected acc.st.staleness_threshold x.2 then [] else [x.2.tensors]) ∧
    (processResult r acc x).weights
      = acc.weights
        ++ (if isRejected acc.st.staleness_threshold x.2 then [] else [x.2.num_examples]) := by
  simp only [processResult]
  cases h : isRejected acc.st.staleness_threshold x.2 <;> simp [h]

/-- Characterization of the whole per-result loop (lines 144-175): the
strategy state's threshold, quorum, global parameters and history are left
alone, while the tensors and sample counts of exactly the non-rejected
results are appended, in order, to the accumulator's lists. -/
theorem foldLoop_spec (r : Int) (results : List (ClientId × FitRes)) (acc : FitLoop) :
    (List.foldl (processResult r) acc results).st.staleness_threshold
        = acc.st.staleness_threshold ∧
    (List.foldl (processResult r) acc results).st.min_fit_clients
        = acc.st.min_fit_clients ∧
    (List.foldl (processResult r) acc results).st.global_parameters
        = acc.st.global_parameters ∧
    (List.foldl (processResult r) acc results).st.parameters_history
        = acc.st.parameters_history ∧
    (List.foldl (processResult r) acc results).parameters_list
        = acc.parameters_list
          ++ (results.filter (fun x => !(isRejected acc.st.staleness_threshold x.2))).map
              (fun x => x.2.tensors) ∧
    (List.foldl (processResult r) acc results).weights
        = acc.weights
          ++ (results.filter (fun x => !(isRejected acc.st.staleness_threshold x.2))).map
              (fun x => x.2.num_examples) := by
  induction results generalizing acc with
  | nil => simp
  | cons x xs ih =>
    have hfields := processResult_fields r acc x
    have hlists := processResult_lists r acc x
    have hih := ih (processResult r acc x)
    rw [hfields.1] at hih
    simp only [List.foldl_cons]
    refine ⟨hih.1, hih.2.1.trans hfields.2.1,
      hih.2.2.1.trans hfields.2.2.1, hih.2.2.2.1.trans hfields.2.2.2, ?_, ?_⟩
    · rw [hih.2.2.2.2.1, hlists.1]
      cases h : isRejected acc.st.staleness_threshold x.2 <;>
        simp [List.filter_cons, h]
    · rw [hih.2.2.2.2.2, hlists.2]
      cases h : isRejected acc.st.staleness_threshold x.2 <;>
        simp [List.filter_cons, h]

/-! ### Helper lemmas about shapes and elementwise access -/

theorem addScaled_getD (w : ℚ) (a t : Tensor) (h : a.length = t.length) (k : Nat) :
    (addScaled w a t).getD k 0 = a.getD k 0 + w * t.getD k 0 := by
  induction a generalizing t k with
  | nil =>
    have : t = [] := List.eq_nil_of_length_eq_zero h.symm
    subst this
    simp [addScaled]
  | cons x xs ih =>
    cases t with
    | nil => simp at h
    | cons y ys =>
      cases k with
      | zero => simp [addScaled]
      | succ k => simpa [addScaled] using ih ys (by simpa using h) k

theorem shapeOf_length_eq (p q : Params) (h : shapeOf p = shapeOf q) :
    p.length = q.length := by
  have := congrArg List.length h
  simpa [shapeOf] using this

theorem shapeOf_getD (p q : Params) (h : shapeOf p = shapeOf q) (j : Nat) :
    (p.getD j []).length = (q.getD j []).length := by
  induction p generalizing q j with
  | nil =>
    have : q = [] := List.eq_nil_of_length_eq_zero (shapeOf_length_eq _ _ h).symm
    subst this
    simp
  | cons a as ih =>
    cases q with
    | nil => simp [shapeOf] at h
    | cons b bs =>
      simp only [shapeOf, List.map_cons, List.cons.injEq] at h
      cases j with
      | zero => simpa using h.1
      | succ j => simpa using ih bs (by simpa [shapeOf] using h.2) j

theorem foldContrib_eq_zipWith (w : ℚ) (agg p : Params) (h : agg.length = p.length) :
    foldContrib agg w p = List.zipWith (addScaled w) agg p := by
  simp [foldContrib, ← h, List.drop_length]

theorem zipWith_params_getD (w : ℚ) (agg p : Params) (h : agg.length = p.length) (j : Nat) :
    (List.zipWith (addScaled w) agg p).getD j []
      = addScaled w (agg.getD j []) (p.getD j []) := by
  induction agg generalizing p j with
  | nil =>
    have : p = [] := List.eq_nil_of_length_eq_zero h.symm
    subst this
    simp [addScaled]
  | cons a as ih =>
    cases p with
    | nil => simp at h
    | cons t ts =>
      cases j with
      | zero => simp
      | succ j => simpa using ih ts (by simpa using h) j

theorem shapeOf_foldContrib (w : ℚ) (agg p : Params) (h : shapeOf agg = shapeOf p) :
    shapeOf (foldContrib agg w p) = shapeOf agg := by
  rw [foldContrib_eq_zipWith w agg p (shapeOf_length_eq _ _ h)]
  induction agg generalizing p with
  | nil => simp [shapeOf]
  | cons a as ih =>
    cases p with
    | nil => simp [shapeOf] at h
    | cons t ts =>
      simp only [shapeOf, List.map_cons, List.cons.injEq] at h
      simp only [List.zipWith_cons_cons, shapeOf, List.map_cons, List.cons.injEq]
      constructor
      · simp [addScaled, h.1]
      · simpa [shapeOf] using ih ts (by simpa [shapeOf] using h.2)

theorem nthQ_foldContrib (w : ℚ) (agg p : Params) (h : shapeOf agg = shapeOf p)
    (j k : Nat) :
    nthQ (foldContrib agg w p) j k = nthQ agg j k + w * nthQ p j k := by
  have hlen := shapeOf_length_eq _ _ h
  rw [nthQ, foldContrib_eq_zipWith w agg p hlen, zipWith_params_getD w agg p hlen j,
    addScaled_getD w _ _ (shapeOf_getD _ _ h j) k]
  rfl

theorem getD_map_zero (t : Tensor) (k : Nat) :
    (t.map (fun _ => (0 : ℚ))).getD k 0 = 0 := by
  induction t generalizing k with
  | nil => simp
  | cons x xs ih =>
    cases k with
    | zero => simp
    | succ k => simp only [List.map_cons, List.getD_cons_succ]; exact ih k

theorem nthQ_zerosLike (p : Params) (j k : Nat) : nthQ (zerosLike p) j k = 0 := by
  unfold nthQ zerosLike
  induction p generalizing j with
  | nil => simp
  | cons t ts ih =>
    cases j with
    | zero => simp only [List.map_cons, List.getD_cons_zero]; exact getD_map_zero t k
    | succ j => simpa using ih j

theorem shapeOf_zerosLike (p : Params) : shapeOf (zerosLike p) = shapeOf p := by
  simp [shapeOf, zerosLike]

/-- Folding a list of (normalized weight, contribution) pairs whose
contributions all share shape `S` over an accumulator of shape `S` adds, at
every position, the weighted contributions to the accumulator. -/
theorem nthQ_fold (L : List (ℚ × Params)) (agg : Params) (S : List Nat)
    (hagg : shapeOf agg = S) (hL : ∀ x ∈ L, shapeOf x.2 = S) (j k : Nat) :
    nthQ (L.foldl (fun a wp => foldContrib a wp.1 wp.2) agg) j k
      = nthQ agg j k + (L.map (fun wp => wp.1 * nthQ wp.2 j k)).sum := by
  induction L generalizing agg with
  | nil => simp
  | cons wp L ih =>
    have hshape : shapeOf agg = shapeOf wp.2 :=
      hagg.trans (hL wp (List.mem_cons_self wp L)).symm
    have hstep : shapeOf (foldContrib agg wp.1 wp.2) = S :=
      (shapeOf_foldContrib wp.1 agg wp.2 hshape).trans hagg
    simp only [List.foldl_cons, List.map_cons, List.sum_cons]
    rw [ih (foldContrib agg wp.1 wp.2) hstep
        (fun x hx => hL x (List.mem_cons_of_mem wp hx)),
      nthQ_foldContrib wp.1 agg wp.2 hshape j k]
    ring

/-! ### Helper lemmas about the normalized weights -/

theorem totalWeight_pos (weights : List Int) (hne : weights ≠ [])
    (hpos : ∀ w ∈ weights, 0 < w) : 0 < totalWeight weights := by
  unfold totalWeight
  refine List.sum_pos _ ?_ ?_
  · intro q hq
    obtain ⟨w, hw, rfl⟩ := List.mem_map.mp hq
    exact_mod_cast hpos w hw
  · simpa using hne

theorem normalizedWeights_sum (weights : List Int) (hne : weights ≠ [])
    (hpos : ∀ w ∈ weights, 0 < w) : (normalizedWeights weights).sum = 1 := by
  have hT : totalWeight weights ≠ 0 := ne_of_gt (totalWeight_pos weights hne hpos)
  unfold normalizedWeights
  have h2 : (fun (w : Int) => (w : ℚ) / totalWeight weights)
      = fun (w : Int) => (w : ℚ) * (totalWeight weights)⁻¹ :=
    funext fun w => div_eq_mul_inv _ _
  rw [h2, List.sum_map_mul_right, ← totalWeight, mul_inv_cancel₀ hT]

theorem addScaled_one_zeros (t : Tensor) :
    addScaled 1 (t.map (fun _ => (0 : ℚ))) t = t := by
  induction t with
  | nil => rfl
  | cons y ys ih =>
    simp only [List.map_cons, addScaled, List.zipWith_cons_cons] at ih ⊢
    rw [ih]
    norm_num

theorem zipWith_addScaled_one_zerosLike (p : Params) :
    List.zipWith (addScaled 1) (zerosLike p) p = p := by
  induction p with
  | nil => rfl
  | cons t ts ih =>
    simp only [zerosLike, List.map_cons, List.zipWith_cons_cons] at ih ⊢
    rw [addScaled_one_zeros t, ih]

theorem foldContrib_zerosLike (p : Params) : foldContrib (zerosLike p) 1 p = p := by
  rw [foldContrib_eq_zipWith 1 _ _ (by simp [zerosLike])]
  exact zipWith_addScaled_one_zerosLike p

/-- Aggregating a single contribution with a nonzero weight returns that
contribution exactly. -/
theorem weightedAverage_single (p : Params) (w : Int) (hw : (w : ℚ) ≠ 0) :
    weightedAverage [p] [w] = p := by
  have ht : totalWeight [w] = (w : ℚ) := by simp [totalWeight]
  have hn : normalizedWeights [w] = [1] := by
    simp [normalizedWeights, ht, div_self hw]
  have hnw : ((w : ℚ) / totalWeight [w]) = 1 := by rw [ht]; exact div_self hw
  show foldContrib (zerosLike p) ((w : ℚ) / totalWeight [w]) p = p
  rw [hnw]
  exact foldContrib_zerosLike p

/-! ### Branch characterizations of `aggregate_fit` -/

theorem runLoop_spec (st : ServerState) (r : Int) (results : List (ClientId × FitRes)) :
    (runLoop st r results).st.staleness_threshold = st.staleness_threshold ∧
    (runLoop st r results).st.min_fit_clients = st.min_fit_clients ∧
    (runLoop st r results).st.global_parameters = st.global_parameters ∧
    (runLoop st r results).st.parameters_history = st.parameters_history ∧
    (runLoop st r results).parameters_list
      = (results.filter (fun x => !(isRejected st.staleness_threshold x.2))).map
          (fun x => x.2.tensors) ∧
    (runLoop st r results).weights
      = (results.filter (fun x => !(isRejected st.staleness_threshold x.2))).map
          (fun x => x.2.num_examples) := by
  simpa [runLoop, initLoop] using foldLoop_spec r results (initLoop st)

theorem runLoop_length (st : ServerState) (r : Int) (results : List (ClientId × FitRes)) :
    (runLoop st r results).parameters_list.length
      = numAccepted st.staleness_threshold results := by
  rw [(runLoop_spec st r results).2.2.2.2.1, numAccepted, List.length_map]

/-- When results arrived but fewer than `min_fit_clients` pass the staleness
filter, `aggregate_fit` takes the skip branch (lines 177-184). -/
theorem aggregate_fit_skip (st : ServerState) (r : Int)
    (results : List (ClientId × FitRes)) (hne : results ≠ [])
    (hlow : numAccepted st.staleness_threshold results < st.min_fit_clients) :
    aggregate_fit st r results
      = ((runLoop st r results).st.global_parameters,
         [("accepted_updates", ((runLoop st r results).st.accepted_updates : ℚ)),
          ("rejected_updates", ((runLoop st r results).st.rejected_updates : ℚ))],
         (runLoop st r results).st) := by
  obtain ⟨x, xs, rfl⟩ := List.exists_cons_of_ne_nil hne
  have hcond : (runLoop st r (x :: xs)).parameters_list.length
      < (runLoop st r (x :: xs)).st.min_fit_clients := by
    rw [runLoop_length, (runLoop_spec st r (x :: xs)).2.1]
    exact hlow
  simp only [aggregate_fit, List.isEmpty_cons, Bool.false_eq_true, if_false]
  rw [if_pos hcond]

/-- When results arrived and at least `min_fit_clients` pass the staleness
filter, `aggregate_fit` takes the aggregation branch (lines 186-214). -/
theorem aggregate_fit_agg (st : ServerState) (r : Int)
    (results : List (ClientId × FitRes)) (hne : results ≠ [])
    (hhigh : st.min_fit_clients ≤ numAccepted st.staleness_threshold results) :
    aggregate_fit st r results
      = (some (weightedAverage (runLoop st r results).parameters_list
            (runLoop st r results).weights),
         [("accepted_updates", ((runLoop st r results).st.accepted_updates : ℚ)),
          ("rejected_updates", ((runLoop st r results).st.rejected_updates : ℚ)),
          ("avg_staleness", meanInt (runLoop st r results).staleness_list),
          ("aggregated_from", ((runLoop st r results).parameters_list.length : ℚ))],
         { (runLoop st r results).st with
           global_parameters := some (weightedAverage (runLoop st r results).parameters_list
              (runLoop st r results).weights)
           parameters_history := (runLoop st r results).st.parameters_history
              ++ [some (weightedAverage (runLoop st r results).parameters_list
                    (runLoop st r results).weights)] }) := by
  obtain ⟨x, xs, rfl⟩ := List.exists_cons_of_ne_nil hne
  have hcond : ¬ ((runLoop st r (x :: xs)).parameters_list.length
      < (runLoop st r (x :: xs)).st.min_fit_clients) := by
    rw [runLoop_length, (runLoop_spec st r (x :: xs)).2.1]
    exact not_lt.mpr hhigh
  simp only [aggregate_fit, List.isEmpty_cons, Bool.false_eq_true, if_false]
  rw [if_neg hcond]

/-! ### Claim theorems -/

/-- C1: for all non-negative integers `localRound`, `serverRound`,
`threshold`, with `staleness = max(0, serverRound - localRound)` as the
client computes it, a contribution carrying the client's reported metrics is
accepted by the server's staleness check iff `staleness ≤ threshold`; in
particular `staleness = threshold` is accepted and `staleness = threshold + 1`
is rejected as too stale. -/
theorem staleness_policy_accept_iff (local_round server_round threshold n : Int)
    (ts : Params) (_hl : 0 ≤ local_round) (_hs : 0 ≤ server_round)
    (_ht : 0 ≤ threshold) :
    (isRejected threshold ⟨n, ts, clientFitMetrics local_round server_round threshold⟩
        = false ↔ clientStaleness local_round server_round ≤ threshold) ∧
    (clientStaleness local_round server_round = threshold →
      isRejected threshold ⟨n, ts, clientFitMetrics local_round server_round threshold⟩
        = false) ∧
    (clientStaleness local_round server_round = threshold + 1 →
      isRejected threshold ⟨n, ts, clientFitMetrics local_round server_round threshold⟩
        = true) := by
  have hr : isRejected threshold
      ⟨n, ts, clientFitMetrics local_round server_round threshold⟩
      = decide (threshold < clientStaleness local_round server_round) := by
    unfold clientFitMetrics isRejected
    by_cases h : threshold < clientStaleness local_round server_round <;> simp [h]
  refine ⟨?_, ?_, ?_⟩
  · rw [hr]
    simp [not_lt]
  · intro h
    rw [hr, h]
    simp
  · intro h
    rw [hr, h]
    simp

/-- Witness for C1: `localRound = 0`, `serverRound = 2`, `threshold = 2`
gives staleness exactly at the threshold, and the contribution is accepted. -/
theorem staleness_policy_accept_iff_witness :
    isRejected 2 ⟨5, [], clientFitMetrics 0 2 2⟩ = false :=
  (staleness_policy_accept_iff 0 2 2 5 [] (by decide) (by decide) (by decide)).1.mpr
    (by decide)

/-- C2: for a non-empty contribution list with positive sample-count weights
and agreeing shapes, the aggregator's normalized weights sum to 1 exactly
(hence within tolerance 1e-9), and every position of the output equals the
sum over contributions of `normalizedWeight[i] * tensor[i]` at that
position, i.e. the weighted mean of the inputs. -/
theorem aggregator_weighted_mean (parameters_list : List Params)
    (weights : List Int) (j k : Nat)
    (hne : parameters_list ≠ [])
    (hlen : weights.length = parameters_list.length)
    (hpos : ∀ w ∈ weights, 0 < w)
    (hshape : ∀ p ∈ parameters_list,
        shapeOf p = shapeOf (parameters_list.headD [])) :
    (normalizedWeights weights).sum = 1 ∧
    |(normalizedWeights weights).sum - 1| ≤ 1 / 1000000000 ∧
    nthQ (weightedAverage parameters_list weights) j k
      = ((List.zip (normalizedWeights weights) parameters_list).map
          (fun wp => wp.1 * nthQ wp.2 j k)).sum := by
  have hwne : weights ≠ [] := by
    intro h
    subst h
    exact hne (List.eq_nil_of_length_eq_zero hlen.symm)
  have h1 := normalizedWeights_sum weights hwne hpos
  refine ⟨h1, by rw [h1]; norm_num, ?_⟩
  show nthQ ((List.zip (normalizedWeights weights) parameters_list).foldl
      (fun agg wp => foldContrib agg wp.1 wp.2)
      (zerosLike (parameters_list.headD []))) j k = _
  rw [nthQ_fold (List.zip (normalizedWeights weights) parameters_list)
      (zerosLike (parameters_list.headD [])) (shapeOf (parameters_list.headD []))
      (shapeOf_zerosLike _)
      (fun x hx => hshape x.2 (List.of_mem_zip hx).2) j k,
    nthQ_zerosLike, zero_add]

/-- Witness for C2: two one-tensor contributions `[[1,2]]` and `[[3,4]]`
with weights 1 and 3, checked at position (0,0). -/
theorem aggregator_weighted_mean_witness :
    (normalizedWeights [1, 3]).sum = 1 ∧
    |(normalizedWeights [1, 3]).sum - 1| ≤ 1 / 1000000000 ∧
    nthQ (weightedAverage [[[1, 2]], [[3, 4]]] [1, 3]) 0 0
      = ((List.zip (normalizedWeights [1, 3]) [[[1, 2]], [[3, 4]]]).map
          (fun wp => wp.1 * nthQ wp.2 0 0)).sum :=
  aggregator_weighted_mean [[[1, 2]], [[3, 4]]] [1, 3] 0 0 (by decide) (by decide)
    (by decide) (by decide)

/-- C3: when the accepted contributions fall below `min_fit_clients`,
aggregation is skipped: `aggregate_fit` returns the previously stored global
parameter vector unchanged, the parameters history is not extended, the
condition is reported through the returned round-metrics dictionary (the
call returns normally, nothing fatal), and the spec-modelled round driver
continues with `serverRound` advanced by exactly 1. -/
theorem aggregation_skipped (st : ServerState) (r : Int)
    (results : List (ClientId × FitRes)) (rest : List (List (ClientId × FitRes)))
    (hne : results ≠ [])
    (hlow : numAccepted st.staleness_threshold results < st.min_fit_clients) :
    (roundStep st r results).1 = st.global_parameters ∧
    (roundStep st r results).2.2.global_parameters = st.global_parameters ∧
    (roundStep st r results).2.2.parameters_history = st.parameters_history ∧
    (roundStep st r results).2.1
      = [("accepted_updates", ((roundStep st r results).2.2.accepted_updates : ℚ)),
         ("rejected_updates", ((roundStep st r results).2.2.rejected_updates : ℚ))] ∧
    runFitRounds st r (results :: rest)
      = runFitRounds (roundStep st r results).2.2 (r + 1) rest := by
  have hskip := aggregate_fit_skip { st with server_round := r } r results hne hlow
  have hspec := runLoop_spec { st with server_round := r } r results
  refine ⟨?_, ?_, ?_, ?_, rfl⟩
  · show (aggregate_fit { st with server_round := r } r results).1 = _
    rw [hskip]
    exact hspec.2.2.1
  · show (aggregate_fit { st with server_round := r } r results).2.2.global_parameters = _
    rw [hskip]
    exact hspec.2.2.1
  · show (aggregate_fit { st with server_round := r } r results).2.2.parameters_history = _
    rw [hskip]
    exact hspec.2.2.2.1
  · show (aggregate_fit { st with server_round := r } r results).2.1
        = [("accepted_updates",
            ((aggregate_fit { st with server_round := r } r results).2.2.accepted_updates : ℚ)),
           ("rejected_updates",
            ((aggregate_fit { st with server_round := r } r results).2.2.rejected_updates : ℚ))]
    rw [hskip]

/-- Witness for C3: four fresh single-client results cannot reach
`min_fit_clients = 4` when only 2 arrive. -/
theorem aggregation_skipped_witness :
    (roundStep (sampleState 4) 1 [("a", freshFit 5 [[1, 2], [3]]),
        ("b", freshFit 5 [[1, 2], [3]])]).1 = (sampleState 4).global_parameters ∧
    (roundStep (sampleState 4) 1 [("a", freshFit 5 [[1, 2], [3]]),
        ("b", freshFit 5 [[1, 2], [3]])]).2.2.parameters_history
      = (sampleState 4).parameters_history := by
  have h := aggregation_skipped (sampleState 4) 1
    [("a", freshFit 5 [[1, 2], [3]]), ("b", freshFit 5 [[1, 2], [3]])] []
    (by decide) (by decide)
  exact ⟨h.1, h.2.2.1⟩

/-- C6: when the result list is empty, `aggregate_fit` publishes no new
parameter vector (`none`, the failed-round report), returns empty metrics,
and leaves the whole strategy state — in particular the previous global
parameter vector — unchanged. -/
theorem empty_round_keeps_parameters (st : ServerState) (r : Int) :
    aggregate_fit st r [] = (none, [], st) := by
  simp [aggregate_fit]

/-- A single accepted contribution with a nonzero sample count is
republished verbatim whenever the quorum check passes. -/
theorem aggregate_fit_single (st : ServerState) (r : Int) (c : ClientId)
    (fr : FitRes) (hmin : st.min_fit_clients ≤ 1)
    (hacc : isRejected st.staleness_threshold fr = false)
    (hw : (fr.num_examples : ℚ) ≠ 0) :
    (aggregate_fit st r [(c, fr)]).1 = some fr.tensors := by
  have hnum : numAccepted st.staleness_threshold [(c, fr)] = 1 := by
    simp [numAccepted, hacc]
  have hagg := aggregate_fit_agg st r [(c, fr)] (by simp)
    (by rw [hnum]; exact hmin)
  rw [hagg]
  have hspec := runLoop_spec st r [(c, fr)]
  rw [hspec.2.2.2.2.1, hspec.2.2.2.2.2]
  simp only [List.filter_cons, hacc, Bool.not_false, List.filter_nil, if_true,
    List.map_cons, List.map_nil]
  rw [weightedAverage_single fr.tensors fr.num_examples hw]

/-- C7: aggregating a single accepted contribution with a positive sample
count (its weight normalized to 1) publishes that contribution's parameter
vector unchanged, provided the minimum-accepted-contributions check passes
(`min_fit_clients ≤ 1`). -/
theorem single_contribution_identity (st : ServerState) (r : Int) (c : ClientId)
    (fr : FitRes) (hmin : st.min_fit_clients ≤ 1)
    (hacc : isRejected st.staleness_threshold fr = false)
    (hw : 0 < fr.num_examples) :
    (aggregate_fit st r [(c, fr)]).1 = some fr.tensors :=
  aggregate_fit_single st r c fr hmin hacc (by exact_mod_cast ne_of_gt hw)

/-- Witness for C7: a single fresh contribution with 5 samples is republished
verbatim when `min_fit_clients = 1`. -/
theorem single_contribution_identity_witness :
    (aggregate_fit (sampleState 1) 1 [("a", freshFit 5 [[7, 8]])]).1
      = some [[7, 8]] :=
  single_contribution_identity (sampleState 1) 1 "a" (freshFit 5 [[7, 8]])
    (by decide) (by decide) (by decide)

/-- Whatever branch `aggregate_fit` takes on a non-empty result list, the
client table and the accept/reject counters of the returned state are those
produced by the per-result loop. -/
theorem aggregate_fit_state_fields (st : ServerState) (r : Int)
    (results : List (ClientId × FitRes)) (hne : results ≠ []) :
    (aggregate_fit st r results).2.2.client_rounds
        = (runLoop st r results).st.client_rounds ∧
    (aggregate_fit st r results).2.2.accepted_updates
        = (runLoop st r results).st.accepted_updates ∧
    (aggregate_fit st r results).2.2.rejected_updates
        = (runLoop st r results).st.rejected_updates := by
  by_cases hc : numAccepted st.staleness_threshold results < st.min_fit_clients
  · rw [aggregate_fit_skip st r results hne hc]
    exact ⟨rfl, rfl, rfl⟩
  · rw [aggregate_fit_agg st r results hne (not_lt.mp hc)]
    exact ⟨rfl, rfl, rfl⟩

/-- Effect of processing a single contribution: the client's recorded round
is overwritten with `server_round - staleness` in both branches, and exactly
one of the two counters is bumped. -/
theorem runLoop_single (st : ServerState) (r : Int) (c : ClientId) (fr : FitRes) :
    (runLoop st r [(c, fr)]).st.client_rounds c = r - fr.metrics.staleness.getD 0 ∧
    (runLoop st r [(c, fr)]).st.accepted_updates
      = st.accepted_updates + (if isRejected st.staleness_threshold fr then 0 else 1) ∧
    (runLoop st r [(c, fr)]).st.rejected_updates
      = st.rejected_updates + (if isRejected st.staleness_threshold fr then 1 else 0) := by
  cases h : isRejected st.staleness_threshold fr <;>
    simp [runLoop, processResult, initLoop, setClientRound, pushStat, h]

/-- C4 counterexample: a contribution with `sampleCount = 0` that is not
stale is accepted (the accepted counter is bumped, the rejected one is not),
and its zero sample count enters the weight list used for aggregation —
refuting the claim that zero/negative sample counts are rejected. -/
theorem zero_weight_accepted_counterexample :
    (freshFit 0 [[1, 2], [3]]).num_examples = 0 ∧
    (aggregate_fit (sampleState 4) 1 [("a", freshFit 0 [[1, 2], [3]])]).2.2.accepted_updates
      = 1 ∧
    (aggregate_fit (sampleState 4) 1 [("a", freshFit 0 [[1, 2], [3]])]).2.2.rejected_updates
      = 0 ∧
    (runLoop (sampleState 4) 1 [("a", freshFit 0 [[1, 2], [3]])]).weights = [0] := by
  refine ⟨rfl, ?_, ?_, rfl⟩ <;> decide

/-- C4 amended: the server never inspects `sampleCount`; the weight list
entering the weighted average is exactly the raw sample counts of every
contribution that passes the staleness filter, whether positive or not. -/
theorem weights_are_raw_sample_counts (st : ServerState) (r : Int)
    (results : List (ClientId × FitRes)) :
    (runLoop st r results).weights
      = (results.filter (fun x => !(isRejected st.staleness_threshold x.2))).map
          (fun x => x.2.num_examples) :=
  (runLoop_spec st r results).2.2.2.2.2

/-- C5 counterexample: a fresh contribution whose tensor shapes disagree
with the current global parameter vector is accepted (not counted as
rejected) and folded into — here, published as — the new parameter vector,
refuting the claim that shape-mismatched contributions are dropped. -/
theorem shape_mismatch_accepted_counterexample :
    shapeOf [[(5 : ℚ)]] ≠ shapeOf [[1, 2], [3]] ∧
    (sampleState 1).global_parameters = some [[1, 2], [3]] ∧
    (aggregate_fit (sampleState 1) 1 [("a", freshFit 1 [[5]])]).2.2.rejected_updates = 0 ∧
    (aggregate_fit (sampleState 1) 1 [("a", freshFit 1 [[5]])]).2.2.accepted_updates = 1 ∧
    (aggregate_fit (sampleState 1) 1 [("a", freshFit 1 [[5]])]).1 = some [[5]] := by
  refine ⟨by decide, rfl, by decide, by decide, ?_⟩
  exact aggregate_fit_single (sampleState 1) 1 "a" (freshFit 1 [[5]])
    (by decide) (by decide) (by norm_num [freshFit])

/-- C5 amended: no shape check is performed; the accept/reject decision
reads only the reported metrics (it is blind to the tensors), and the
tensors of every contribution that passes the staleness filter enter the
aggregation list as-is. -/
theorem accepted_tensors_unchecked (st : ServerState) (r : Int)
    (results : List (ClientId × FitRes)) (thr n n' : Int) (ts ts' : Params)
    (m : FitMetrics) :
    (runLoop st r results).parameters_list
      = (results.filter (fun x => !(isRejected st.staleness_threshold x.2))).map
          (fun x => x.2.tensors) ∧
    isRejected thr ⟨n, ts, m⟩ = isRejected thr ⟨n', ts', m⟩ :=
  ⟨(runLoop_spec st r results).2.2.2.2.1, rfl⟩

/-- C8 counterexample: a client whose recorded round is 5 submits a
contribution reporting staleness 8 at server round 10; the contribution is
rejected, yet the client's recorded round changes from 5 to
`10 - 8 = 2` — refuting the claim that a rejected contribution leaves the
client's `localRound` unchanged. -/
theorem rejected_update_moves_local_round_counterexample :
    isRejected sampleStateCR.staleness_threshold staleFit = true ∧
    sampleStateCR.client_rounds "a" = 5 ∧
    (aggregate_fit sampleStateCR 10 [("a", staleFit)]).2.2.rejected_updates = 1 ∧
    (aggregate_fit sampleStateCR 10 [("a", staleFit)]).2.2.client_rounds "a" = 2 := by
  refine ⟨rfl, rfl, ?_, ?_⟩ <;> decide

/-- C8 amended: for every processed contribution — accepted or rejected —
the coordinator overwrites the client's recorded round with
`serverRound - reportedStaleness`; rejection additionally increments only
the rejected counter, acceptance only the accepted counter. -/
theorem client_round_always_overwritten (st : ServerState) (r : Int)
    (c : ClientId) (fr : FitRes) :
    (aggregate_fit st r [(c, fr)]).2.2.client_rounds c
      = r - fr.metrics.staleness.getD 0 ∧
    (aggregate_fit st r [(c, fr)]).2.2.accepted_updates
      = st.accepted_updates + (if isRejected st.staleness_threshold fr then 0 else 1) ∧
    (aggregate_fit st r [(c, fr)]).2.2.rejected_updates
      = st.rejected_updates + (if isRejected st.staleness_threshold fr then 1 else 0) := by
  have hfields := aggregate_fit_state_fields st r [(c, fr)] (by simp)
  have hsingle := runLoop_single st r c fr
  refine ⟨?_, ?_, ?_⟩
  · rw [hfields.1, hsingle.1]
  · rw [hfields.2.1, hsingle.2.1]
  · rw [hfields.2.2, hsingle.2.2]

/-- C9: the invariant "the current global parameter vector is the last
element of the parameters history" is established by initialization and
preserved by every `aggregate_fit` call; the history is append-only (the old
history is an unchanged prefix of the new one) and grows by exactly one
entry when aggregation is performed and by zero entries otherwise; and
`aggregate_evaluate` leaves the state untouched. -/
theorem history_invariant (p0 : Option Params) (mfc : Nat) (thr : Int)
    (st : ServerState) (r : Int) (results : List (ClientId × FitRes))
    (evresults : List (ClientId × EvalRes)) (h : histInv st) :
    histInv (initState p0 mfc thr) ∧
    histInv (aggregate_fit st r results).2.2 ∧
    (aggregate_fit st r results).2.2.parameters_history.take
        st.parameters_history.length = st.parameters_history ∧
    (aggregate_fit st r results).2.2.parameters_history.length
      = st.parameters_history.length
        + (if aggregationPerformed st results then 1 else 0) ∧
    (aggregate_evaluate st r evresults).2.2 = st := by
  have heval : (aggregate_evaluate st r evresults).2.2 = st := by
    cases evresults <;> rfl
  have hinit : histInv (initState p0 mfc thr) := rfl
  cases results with
  | nil =>
    rw [empty_round_keeps_parameters st r]
    exact ⟨hinit, h, List.take_length st.parameters_history,
      by simp [aggregationPerformed], heval⟩
  | cons x xs =>
    have hne : (x :: xs) ≠ [] := by simp
    by_cases hc : numAccepted st.staleness_threshold (x :: xs) < st.min_fit_clients
    · rw [aggregate_fit_skip st r (x :: xs) hne hc]
      have hspec := runLoop_spec st r (x :: xs)
      refine ⟨hinit, ?_, ?_, ?_, heval⟩
      · show (runLoop st r (x :: xs)).st.parameters_history.getLast? = _
        rw [hspec.2.2.2.1, hspec.2.2.1]
        exact h
      · rw [hspec.2.2.2.1]
        exact List.take_length st.parameters_history
      · rw [hspec.2.2.2.1]
        have hperf : aggregationPerformed st (x :: xs) = false := by
          simp [aggregationPerformed, not_le.mpr hc]
        rw [hperf]
        simp
    · rw [aggregate_fit_agg st r (x :: xs) hne (not_lt.mp hc)]
      have hspec := runLoop_spec st r (x :: xs)
      refine ⟨hinit, ?_, ?_, ?_, heval⟩
      · simp only [histInv]
        exact List.getLast?_concat _
      · rw [show ({ (runLoop st r (x :: xs)).st with
              global_parameters := some (weightedAverage
                (runLoop st r (x :: xs)).parameters_list (runLoop st r (x :: xs)).weights)
              parameters_history := (runLoop st r (x :: xs)).st.parameters_history
                ++ [some (weightedAverage (runLoop st r (x :: xs)).parameters_list
                      (runLoop st r (x :: xs)).weights)] } :
              ServerState).parameters_history
            = (runLoop st r (x :: xs)).st.parameters_history
                ++ [some (weightedAverage (runLoop st r (x :: xs)).parameters_list
                      (runLoop st r (x :: xs)).weights)] from rfl, hspec.2.2.2.1]
        exact List.take_left st.parameters_history _
      · rw [show ({ (runLoop st r (x :: xs)).st with
              global_parameters := some (weightedAverage
                (runLoop st r (x :: xs)).parameters_list (runLoop st r (x :: xs)).weights)
              parameters_history := (runLoop st r (x :: xs)).st.parameters_history
                ++ [some (weightedAverage (runLoop st r (x :: xs)).parameters_list
                      (runLoop st r (x :: xs)).weights)] } :
              ServerState).parameters_history
            = (runLoop st r (x :: xs)).st.parameters_history
                ++ [some (weightedAverage (runLoop st r (x :: xs)).parameters_list
                      (runLoop st r (x :: xs)).weights)] from rfl, hspec.2.2.2.1]
        have hperf : aggregationPerformed st (x :: xs) = true := by
          simp [aggregationPerformed, not_lt.mp hc]
        rw [hperf]
        simp

/-- Witness for C9 at a concrete state satisfying the invariant, with an
empty result list. -/
theorem history_invariant_witness :
    histInv (initState (some [[1]]) 4 2) ∧
    histInv (aggregate_fit (sampleState 4) 1 []).2.2 ∧
    (aggregate_fit (sampleState 4) 1 []).2.2.parameters_history.take
        (sampleState 4).parameters_history.length
      = (sampleState 4).parameters_history ∧
    (aggregate_fit (sampleState 4) 1 []).2.2.parameters_history.length
      = (sampleState 4).parameters_history.length
        + (if aggregationPerformed (sampleState 4) [] then 1 else 0) ∧
    (aggregate_evaluate (sampleState 4) 1 []).2.2 = sampleState 4 :=
  history_invariant (some [[1]]) 4 2 (sampleState 4) 1 [] [] rfl

/-- C10: the accept/reject decision reads only the client-reported metrics
keys `staleness` and `is_stale`; a contribution whose metrics bag omits both
keys is treated as staleness 0 and not stale, and is accepted
unconditionally — whatever the server round and whatever the client's
actual lag recorded in `client_rounds`. -/
theorem missing_metrics_accepted (st : ServerState) (r : Int) (c : ClientId)
    (fr : FitRes) (h1 : fr.metrics.staleness = none)
    (h2 : fr.metrics.is_stale = none) :
    isRejected st.staleness_threshold fr = false ∧
    (aggregate_fit st r [(c, fr)]).2.2.accepted_updates = st.accepted_updates + 1 ∧
    (aggregate_fit st r [(c, fr)]).2.2.rejected_updates = st.rejected_updates ∧
    (aggregate_fit st r [(c, fr)]).2.2.client_rounds c = r := by
  have hrej : isRejected st.staleness_threshold fr = false := by
    simp [isRejected, h2]
  have hfields := aggregate_fit_state_fields st r [(c, fr)] (by simp)
  have hsingle := runLoop_single st r c fr
  refine ⟨hrej, ?_, ?_, ?_⟩
  · rw [hfields.2.1, hsingle.2.1, hrej]
    simp
  · rw [hfields.2.2, hsingle.2.2, hrej]
    simp
  · rw [hfields.1, hsingle.1, h1]
    simp

/-- Witness for C10: a contribution with an empty metrics bag at server
round 7 is accepted and recorded as being at round 7. -/
theorem missing_metrics_accepted_witness :
    isRejected (sampleState 4).staleness_threshold (bareFit 5 [[1]]) = false ∧
    (aggregate_fit (sampleState 4) 7 [("a", bareFit 5 [[1]])]).2.2.accepted_updates
      = (sampleState 4).accepted_updates + 1 ∧
    (aggregate_fit (sampleState 4) 7 [("a", bareFit 5 [[1]])]).2.2.rejected_updates
      = (sampleState 4).rejected_updates ∧
    (aggregate_fit (sampleState 4) 7 [("a", bareFit 5 [[1]])]).2.2.client_rounds "a" = 7 :=
  missing_metrics_accepted (sampleState 4) 7 "a" (bareFit 5 [[1]]) rfl rfl

end AsyncFL
